import Mathlib

/-!
Verification of the grid-cache collectible game (`src/main.ts` and the
unnamed earlier variant `src/unnamed/part_000`).

The TypeScript source is shallowly embedded: classes become structures,
functions become Lean functions, the mutable module-level state
(`playerInventory`, `cacheMementos`) becomes explicit state records, and
the external deterministic oracle `luck : string -> [0,1)` becomes a
function parameter `oracle : String → ℚ`.  JavaScript exceptions
(`JSON.parse` throwing on malformed input) become `Except`/`Option`.
-/

namespace Demo3

/-- `class Coin { constructor(public id: string) {} }` (main.ts line 45). -/
structure Coin where
  id : String
deriving DecidableEq, Repr

/-- `class Cache` (main.ts line 49): the token container for one cell.
The `location` field only feeds presentation (marker placement, popup
text) and the grid key computation, which we pass explicitly instead. -/
structure Cache where
  coins : List Coin
deriving DecidableEq, Repr

/-! ### The memento codec

`Cache.toMemento` is `JSON.stringify(this.coins.map(c => c.id))`:
the JSON rendering of an array of strings.  We embed the rendering
character-for-character for strings that need no JSON escaping (coin ids
are of the shape `i:j#k`, which never do), and embed `JSON.parse`
specialised to arrays of such strings as a character-level scanner. -/

/-- A string that `JSON.stringify` renders without escape sequences:
no quote, no backslash, no control characters. -/
def CleanId (s : String) : Prop :=
  ∀ c ∈ s.data, c ≠ '"' ∧ c ≠ '\\' ∧ 32 ≤ c.toNat

instance (s : String) : Decidable (CleanId s) := by
  unfold CleanId; infer_instance

/-- The JSON rendering of one string literal (no escaping needed for clean ids). -/
def quoteChars (s : String) : List Char :=
  '"' :: s.data ++ ['"']

/-- JSON rendering of the 2nd, 3rd, ... elements of an array, plus the closing bracket. -/
def renderRest : List String → List Char
  | [] => [']']
  | x :: xs => ',' :: (quoteChars x ++ renderRest xs)

/-- JSON rendering of an array of strings, as `JSON.stringify` produces it. -/
def renderArray : List String → List Char
  | [] => ['[', ']']
  | x :: xs => '[' :: (quoteChars x ++ renderRest xs)

/-- Scanner state for parsing a JSON array of strings. -/
inductive ScanState where
  /-- expecting `"` opening an element, or `]` when the array may be empty -/
  | expectItem (first : Bool) (acc : List String)
  /-- inside a string literal; `cur` holds the chars read so far, reversed -/
  | inStr (cur : List Char) (acc : List String)
  /-- after a closing `"`; expecting `,` or `]` -/
  | afterItem (acc : List String)
  /-- consumed the closing `]`; any further character is trailing garbage -/
  | closed (res : List String)

/-- Character-level scanner for a JSON array of (escape-free) strings;
`none` models `JSON.parse` throwing. -/
def scanArray : List Char → ScanState → Option (List String)
  | [], ScanState.closed res => some res
  | _ :: _, ScanState.closed _ => none
  | [], _ => none
  | c :: cs, ScanState.expectItem first acc =>
    if c = '"' then scanArray cs (ScanState.inStr [] acc)
    else if first ∧ c = ']' then scanArray cs (ScanState.closed acc.reverse)
    else none
  | c :: cs, ScanState.inStr cur acc =>
    if c = '"' then scanArray cs (ScanState.afterItem (String.mk cur.reverse :: acc))
    else scanArray cs (ScanState.inStr (c :: cur) acc)
  | c :: cs, ScanState.afterItem acc =>
    if c = ',' then scanArray cs (ScanState.expectItem false acc)
    else if c = ']' then scanArray cs (ScanState.closed acc.reverse)
    else none

/-- `JSON.parse` specialised to arrays of escape-free strings
(the image of `Cache.toMemento`); `none` models a thrown exception. -/
def parseMemento (s : String) : Option (List String) :=
  match s.data with
  | '[' :: rest => scanArray rest (ScanState.expectItem true [])
  | _ => none

/-- `toMemento(): string { return JSON.stringify(this.coins.map(coin => coin.id)); }`
(main.ts line 58). -/
def Cache.toMemento (c : Cache) : String :=
  String.mk (renderArray (c.coins.map (fun coin => coin.id)))

/-- `fromMemento(memento: string)` (main.ts line 62): parse the memento and
replace the coin list with coins rebuilt from the ids; `none` models
`JSON.parse` throwing on a malformed memento. -/
def Cache.fromMemento (_c : Cache) (memento : String) : Option Cache :=
  (parseMemento memento).map (fun coinIds => ⟨coinIds.map (fun id => ⟨id⟩)⟩)

/-! #### Codec round-trip lemmas -/

lemma scanArray_inStr (s : List Char) (hs : ∀ c ∈ s, c ≠ '"')
    (cur : List Char) (acc : List String) (cs : List Char) :
    scanArray (s ++ '"' :: cs) (ScanState.inStr cur acc) =
      scanArray cs (ScanState.afterItem (String.mk (cur.reverse ++ s) :: acc)) := by
  induction s generalizing cur with
  | nil => simp [scanArray]
  | cons c s ih =>
    have hc : c ≠ '"' := (hs c (by simp)).elim
    have hrest : ∀ c' ∈ s, c' ≠ '"' := fun c' hc' => hs c' (by simp [hc'])
    simp only [List.cons_append, scanArray, if_neg hc, List.append_eq]
    rw [ih hrest (c :: cur)]
    simp

lemma scanArray_renderRest (xs : List String) (hxs : ∀ x ∈ xs, ∀ c ∈ x.data, c ≠ '"')
    (acc : List String) :
    scanArray (renderRest xs) (ScanState.afterItem acc) = some (acc.reverse ++ xs) := by
  induction xs generalizing acc with
  | nil => simp [renderRest, scanArray]
  | cons x xs ih =>
    have hx : ∀ c ∈ x.data, c ≠ '"' := hxs x (by simp)
    have hrest : ∀ x' ∈ xs, ∀ c ∈ x'.data, c ≠ '"' :=
      fun x' hx' => hxs x' (by simp [hx'])
    show scanArray (',' :: (quoteChars x ++ renderRest xs)) (ScanState.afterItem acc)
      = some (acc.reverse ++ x :: xs)
    simp only [scanArray, if_true, if_pos rfl, quoteChars, List.cons_append,
      List.append_assoc, List.append_eq, List.singleton_append, List.nil_append]
    rw [scanArray_inStr x.data hx [] acc (renderRest xs)]
    rw [ih hrest]
    simp

lemma parse_render (ids : List String) (h : ∀ x ∈ ids, ∀ c ∈ x.data, c ≠ '"') :
    parseMemento (String.mk (renderArray ids)) = some ids := by
  cases ids with
  | nil => simp [parseMemento, renderArray, scanArray]
  | cons x xs =>
    have hx : ∀ c ∈ x.data, c ≠ '"' := h x (by simp)
    have hrest : ∀ x' ∈ xs, ∀ c ∈ x'.data, c ≠ '"' :=
      fun x' hx' => h x' (by simp [hx'])
    show scanArray (quoteChars x ++ renderRest xs) (ScanState.expectItem true []) = _
    simp only [quoteChars, List.cons_append, List.append_assoc, scanArray, if_true,
      if_pos rfl, List.append_eq, List.singleton_append, List.nil_append]
    rw [scanArray_inStr x.data hx [] [] (renderRest xs)]
    rw [scanArray_renderRest xs hrest]
    simp

/-! ### Cells, keys, and procedural generation -/

/-- A grid cell `{ i, j }` (the `Cell` shape used throughout main.ts). -/
structure Cell where
  i : ℤ
  j : ℤ
deriving DecidableEq, Repr

/-- `const CACHE_SPAWN_PROBABILITY = 0.1` (main.ts line 18). -/
def CACHE_SPAWN_PROBABILITY : ℚ := 1/10

/-- `[cell.i, cell.j].toString()` — JavaScript renders this array as `"i,j"`;
the same string is used as the directory key `` `${cell.i},${cell.j}` ``. -/
def cellKeyStr (cell : Cell) : String :=
  toString cell.i ++ "," ++ toString cell.j

/-- `[x, y, "coins"].toString()` (part_000 line 72) — renders as `"x,y,coins"`. -/
def coinsKeyStr (x y : ℤ) : String :=
  toString x ++ "," ++ toString y ++ ",coins"

/-- The spawn check `luck([cell.i, cell.j].toString()) < CACHE_SPAWN_PROBABILITY`
(main.ts lines 291 and 469). -/
def spawnDecision (oracle : String → ℚ) (cell : Cell) : Bool :=
  decide (oracle (cellKeyStr cell) < CACHE_SPAWN_PROBABILITY)

/-- `generateCoins` (main.ts line 340):
`coinCount = Math.floor(luck([cell.i, cell.j].toString()) * 100)` and coins
`` `${cell.i}:${cell.j}#${k}` `` for `k < coinCount`. -/
def generateCoins (oracle : String → ℚ) (cell : Cell) : List Coin :=
  let coinCount : ℕ := (⌊oracle (cellKeyStr cell) * 100⌋).toNat
  (List.range coinCount).map (fun k =>
    ⟨toString cell.i ++ ":" ++ toString cell.j ++ "#" ++ toString k⟩)

/-- The cache coin count of the part_000 variant (`createCache`, line 72):
`Math.floor(luck([x, y, "coins"].toString()) * 10) + 1`. -/
def createCacheCoins (oracle : String → ℚ) (x y : ℤ) : ℕ :=
  (⌊oracle (coinsKeyStr x y) * 10⌋).toNat + 1

/-! ### The cache directory -/

/-- `Map.set` on an association-list embedding of a JavaScript `Map`:
replace the binding of the key if present, else append it. -/
def setEntry {α : Type} : List (String × α) → String → α → List (String × α)
  | [], k, v => [(k, v)]
  | (k', v') :: rest, k, v =>
    if k' = k then (k, v) :: rest else (k', v') :: setEntry rest k v

/-- `Map.get` (with `Map.has` as `(findEntry d k).isSome`). -/
def findEntry {α : Type} : List (String × α) → String → Option α
  | [], _ => none
  | (k', v') :: rest, k => if k' = k then some v' else findEntry rest k

/-- `cacheMementos : Map<string, string>` (main.ts line 37). -/
abbrev MementoDir := List (String × String)

/-- `getOrCreateCache` (main.ts line 316) with `manageCacheState`
(line 298) inlined: when the directory has an entry for the cell, a fresh
empty cache is hydrated from it (`fromMemento` can throw on a malformed
memento, hence `Option`) and the directory is untouched; otherwise a new
cache is generated and its memento saved. -/
def getOrCreateCache (oracle : String → ℚ) (dir : MementoDir) (cell : Cell) :
    Option (Cache × MementoDir) :=
  let cellKey := cellKeyStr cell
  match findEntry dir cellKey with
  | some m => (Cache.fromMemento ⟨[]⟩ m).map (fun c => (c, dir))
  | none =>
    let newCache : Cache := ⟨generateCoins oracle cell⟩
    some (newCache, setEntry dir cellKey newCache.toMemento)

/-- Presentation state: the keys of `activeCacheMarkers` (main.ts line 99)
alongside the authoritative directory. -/
structure VisState where
  dir : MementoDir
  active : List String
deriving DecidableEq, Repr

/-- `Materialized -> Dematerialized` (updateNearbyCaches, main.ts
lines 276-284): `marker.remove(); activeCacheMarkers.delete(key)` —
presentation only, the directory is untouched. -/
def dematerializeCell (s : VisState) (cellKey : String) : VisState :=
  { s with active := s.active.filter (fun k => k ≠ cellKey) }

/-- Materialization of one cell (updateNearbyCaches lines 291-294:
`spawnCache` then `activeCacheMarkers.set`). -/
def materializeCell (oracle : String → ℚ) (s : VisState) (cell : Cell) :
    Option (Cache × VisState) :=
  (getOrCreateCache oracle s.dir cell).map (fun p =>
    (p.1, { dir := p.2, active := s.active ++ [cellKeyStr cell] }))

/-! ### The collect/deposit state machine

`collectCoin` (main.ts line 366) and `depositCoin` (line 402) mutate a
hydrated `Cache` and immediately flush it into `cacheMementos` via
`manageCacheState(cellKey, cache, true)`.  Because every mutation is
flushed synchronously, reachable game states are tracked faithfully at
the level of the directory itself; each entry is held as its decoded
ordered id list (by `parse_render` the memento string determines it). -/

structure StoreState where
  /-- `playerInventory` (main.ts line 36), as its ordered list of coin ids. -/
  inv : List String
  /-- `cacheMementos`, each memento decoded to its ordered id list. -/
  dir : List (String × List String)
deriving DecidableEq, Repr

/-- `collectCoin` (main.ts line 366):
`cache.coins = cache.coins.filter(c => c.id !== coin.id);
playerInventory.push(coin);` then flush.  There is no presence check.
This state-machine form addresses the cell's directory entry itself,
i.e. a hydrated cache in sync with the directory; `collectCoinView`
below embeds the same source function acting on an arbitrary (possibly
stale) cache view.  A cell with no directory entry is a no-op here. -/
def applyCollect (s : StoreState) (cellKey cid : String) : StoreState :=
  match findEntry s.dir cellKey with
  | none => s
  | some m =>
    { inv := s.inv ++ [cid],
      dir := setEntry s.dir cellKey (m.filter (fun c => c != cid)) }

/-- `depositCoin` (main.ts line 402): when the inventory is non-empty,
`playerInventory.shift()` removes its first element and
`cache.coins.push(...)` appends it to the cache, then flush; otherwise a
logged no-op. -/
def applyDeposit (s : StoreState) (cellKey : String) : StoreState :=
  match s.inv, findEntry s.dir cellKey with
  | coinToDeposit :: rest, some m =>
    { inv := rest, dir := setEntry s.dir cellKey (m ++ [coinToDeposit]) }
  | _, _ => s

/-- `collectCoin` (main.ts line 366) acting on an arbitrary hydrated
`Cache` view, given by its coin-id list, which need not agree with the
directory entry for its cell: the initial placement loop (main.ts
467-471) runs before `loadGameState` (line 533) and never registers its
markers in `activeCacheMarkers`, so after a reload those orphan popups
rebuild from stale `Cache` closures.  The view's coins are filtered,
the coin is pushed onto the inventory, and the mutated view is flushed
over the directory entry (`manageCacheState(cellKey, cache, true)`). -/
def collectCoinView (s : StoreState) (cacheIds : List String) (cellKey cid : String) :
    List String × StoreState :=
  let cacheIds' := cacheIds.filter (fun c => c != cid)
  (cacheIds', ⟨s.inv ++ [cid], setEntry s.dir cellKey cacheIds'⟩)

/-- One user action touching game state. -/
inductive Op where
  | collect (cellKey cid : String)
  | deposit (cellKey : String)
deriving DecidableEq, Repr

def applyOp (s : StoreState) : Op → StoreState
  | Op.collect k cid => applyCollect s k cid
  | Op.deposit k => applyDeposit s k

def applyOps (s : StoreState) (ops : List Op) : StoreState :=
  ops.foldl applyOp s

/-- The in-sync collect discipline: every collect targets a coin id
present in the target cell's directory entry.  This holds of collects
issued through a popup whose hydrated `Cache` agrees with the directory
(the common case: `createCoinElement` iterates `cache.coins`, and every
mutation is flushed), but it does NOT bound all reachable runs: the
initial placement loop (main.ts 467-471) runs before `loadGameState`
(line 533) and never registers its markers in `activeCacheMarkers`, so
after a reload those orphan popups rebuild from stale `Cache` closures
and can offer ids absent from the entry — see `collectCoinView` and the
C3/C4 counterexamples.  Deposits guard emptiness themselves. -/
def validOps : StoreState → List Op → Bool
  | _, [] => true
  | s, op :: ops =>
    (match op with
     | Op.collect k cid =>
       match findEntry s.dir k with
       | some m => decide (cid ∈ m)
       | none => false
     | Op.deposit _ => true) && validOps (applyOp s op) ops

/-- Every coin id in play: the inventory followed by every directory entry. -/
def allIds (s : StoreState) : List String :=
  s.inv ++ (s.dir.map (fun e => e.2)).flatten

/-- `|inventory| + sum(|cache.tokens| over all caches ever touched)`. -/
def totalTokens (s : StoreState) : ℕ :=
  s.inv.length + (s.dir.map (fun e => e.2.length)).sum

/-- No coin id is in the inventory and simultaneously in some cache. -/
def NoSharedId (s : StoreState) : Prop :=
  ∀ id ∈ s.inv, ∀ e ∈ s.dir, id ∉ e.2

/-! ### Directory lemmas -/

lemma findEntry_setEntry_self {α : Type} (d : List (String × α)) (k : String) (v : α) :
    findEntry (setEntry d k v) k = some v := by
  induction d with
  | nil => simp [setEntry, findEntry]
  | cons e rest ih =>
    obtain ⟨k', v'⟩ := e
    by_cases h : k' = k
    · simp [setEntry, findEntry, h]
    · simp [setEntry, findEntry, h, ih]

lemma findEntry_setEntry_ne {α : Type} (d : List (String × α)) (k k₀ : String) (v : α)
    (h : k₀ ≠ k) : findEntry (setEntry d k v) k₀ = findEntry d k₀ := by
  have hne : k ≠ k₀ := Ne.symm h
  induction d with
  | nil => simp [setEntry, findEntry, hne]
  | cons e rest ih =>
    obtain ⟨k', v'⟩ := e
    by_cases hk : k' = k
    · subst hk
      simp [setEntry, findEntry, hne]
    · simp [setEntry, findEntry, hk, ih]

/-- A directory with an entry for `k` splits around the first binding of
`k`, and `setEntry` replaces exactly that binding. -/
lemma findEntry_decomp {α : Type} (d : List (String × α)) (k : String) (m : α)
    (h : findEntry d k = some m) :
    ∃ d₁ d₂, d = d₁ ++ (k, m) :: d₂ ∧ ∀ v, setEntry d k v = d₁ ++ (k, v) :: d₂ := by
  induction d with
  | nil => simp [findEntry] at h
  | cons e rest ih =>
    obtain ⟨k', v'⟩ := e
    by_cases hk : k' = k
    · subst hk
      simp only [findEntry, eq_self_iff_true, if_true, Option.some.injEq] at h
      subst h
      exact ⟨[], rest, by simp, fun v => by simp [setEntry]⟩
    · simp only [findEntry, if_neg hk] at h
      obtain ⟨d₁, d₂, hd, hset⟩ := ih h
      exact ⟨(k', v') :: d₁, d₂, by simp [hd],
        fun v => by simp [setEntry, hk, hset v]⟩

/-! ### Permutation machinery for conservation and no-duplication -/

/-- Removing one occurrence of a present element from a duplicate-free
list, viewed as multisets. -/
lemma coe_filter_of_mem (l : List String) (x : String) (hx : x ∈ l) (hnd : l.Nodup) :
    (l : Multiset String) = {x} + (l.filter (fun c => c != x) : List String) := by
  have h1 : List.Perm l (x :: l.erase x) := List.perm_cons_erase hx
  have h2 : l.erase x = l.filter (fun c => c != x) := hnd.erase_eq_filter x
  rw [Multiset.coe_eq_coe.mpr h1, h2, ← Multiset.cons_coe, ← Multiset.singleton_add]

lemma entry_nodup (s : StoreState) (k : String) (m : List String)
    (hf : findEntry s.dir k = some m) (hnd : (allIds s).Nodup) : m.Nodup := by
  obtain ⟨d₁, d₂, hd, -⟩ := findEntry_decomp s.dir k m hf
  rw [allIds, hd] at hnd
  simp only [List.map_append, List.map_cons, List.flatten_append, List.flatten_cons] at hnd
  exact hnd.of_append_right.of_append_right.of_append_left

lemma allIds_applyCollect_perm (s : StoreState) (k cid : String) (m : List String)
    (hf : findEntry s.dir k = some m) (hm : cid ∈ m) (hnd : m.Nodup) :
    List.Perm (allIds (applyCollect s k cid)) (allIds s) := by
  obtain ⟨d₁, d₂, hd, hset⟩ := findEntry_decomp s.dir k m hf
  rw [← Multiset.coe_eq_coe]
  unfold applyCollect
  rw [hf]
  show (↑(allIds ⟨s.inv ++ [cid], setEntry s.dir k (m.filter (fun c => c != cid))⟩)
    : Multiset String) = ↑(allIds s)
  rw [allIds, allIds, hset, hd]
  simp only [List.map_append, List.map_cons, List.flatten_append, List.flatten_cons,
    ← Multiset.coe_add]
  rw [coe_filter_of_mem m cid hm hnd]
  simp only [← Multiset.coe_add, ← Multiset.coe_singleton]
  abel

lemma allIds_applyDeposit_perm (s : StoreState) (k : String) :
    List.Perm (allIds (applyDeposit s k)) (allIds s) := by
  unfold applyDeposit
  cases hinv : s.inv with
  | nil =>
    cases hfind : findEntry s.dir k <;> exact List.Perm.refl _
  | cons c rest =>
    cases hfind : findEntry s.dir k with
    | none => exact List.Perm.refl _
    | some m =>
      obtain ⟨d₁, d₂, hd, hset⟩ := findEntry_decomp s.dir k m hfind
      rw [← Multiset.coe_eq_coe]
      show (↑(allIds ⟨rest, setEntry s.dir k (m ++ [c])⟩) : Multiset String)
        = ↑(allIds s)
      rw [allIds, allIds, hset, hd, hinv]
      simp only [List.map_append, List.map_cons, List.flatten_append, List.flatten_cons,
        List.cons_append, ← Multiset.coe_add, ← Multiset.cons_coe]
      simp only [← Multiset.singleton_add]
      abel

lemma allIds_applyOps_perm (ops : List Op) (s : StoreState)
    (hnd : (allIds s).Nodup) (hv : validOps s ops = true) :
    List.Perm (allIds (applyOps s ops)) (allIds s) := by
  induction ops generalizing s with
  | nil => exact List.Perm.refl _
  | cons op ops ih =>
    have hstep : List.Perm (allIds (applyOp s op)) (allIds s) ∧
        validOps (applyOp s op) ops = true := by
      cases op with
      | collect k cid =>
        simp only [validOps, Bool.and_eq_true] at hv
        obtain ⟨h1, h2⟩ := hv
        cases hfind : findEntry s.dir k with
        | none => rw [hfind] at h1; simp at h1
        | some m =>
          rw [hfind] at h1
          exact ⟨allIds_applyCollect_perm s k cid m hfind (of_decide_eq_true h1)
            (entry_nodup s k m hfind hnd), h2⟩
      | deposit k =>
        simp only [validOps, Bool.and_eq_true] at hv
        exact ⟨allIds_applyDeposit_perm s k, hv.2⟩
    have hnd' : (allIds (applyOp s op)).Nodup := hstep.1.nodup_iff.mpr hnd
    have htail := ih (applyOp s op) hnd' hstep.2
    have heq : applyOps s (op :: ops) = applyOps (applyOp s op) ops := rfl
    rw [heq]
    exact htail.trans hstep.1

/-- `totalTokens` is the length of `allIds`. -/
lemma totalTokens_eq_length_allIds (s : StoreState) :
    totalTokens s = (allIds s).length := by
  rw [totalTokens, allIds]
  simp [List.length_flatten, List.map_map, Function.comp_def]

/-- A duplicate-free pool of ids means no id is shared between the
inventory and any cache. -/
lemma noSharedId_of_nodup (s : StoreState) (hnd : (allIds s).Nodup) :
    NoSharedId s := by
  intro id hid e he hmem
  have hdisj : s.inv.Disjoint ((s.dir.map (fun e => e.2)).flatten) :=
    List.disjoint_of_nodup_append hnd
  exact hdisj hid (List.mem_flatten.mpr ⟨e.2, List.mem_map_of_mem _ he, hmem⟩)

/-! ### Coordinate grid

`main.ts` imports `Grid` and `Cell` from `./grid.ts`, a file of this
repository that is not part of the snapshot — only its callers are.
The two grid operations the claims need are therefore modelled from the
spec (§3 and §4.1). -/

/-- `const TILE_WIDTH = 0.0001` (main.ts line 19). -/
def TILE_WIDTH : ℚ := 1/10000

/-- Modelled from the spec: `grid.ts` (the `Grid.getCellForPoint` method)
is missing from the snapshot.  §3: `i = floor(lat / tileWidth)`,
`j = floor(lng / tileWidth)`. -/
def getCellForPoint (tileWidth : ℚ) (lat lng : ℚ) : Cell :=
  ⟨⌊lat / tileWidth⌋, ⌊lng / tileWidth⌋⟩

/-- Modelled from the spec: `grid.ts` (the `Grid.getCellsNearPoint`
method) is missing from the snapshot.  §4.1: `cellsNear(point,
radiusInCells)` returns every cell whose `(i, j)` differs from
`cellForPoint(point)` by at most `radiusInCells` in each axis (inclusive
square neighborhood, not circular). -/
def getCellsNearPoint (tileWidth : ℚ) (lat lng : ℚ) (radiusInCells : ℕ) : List Cell :=
  (List.range (2 * radiusInCells + 1)).flatMap (fun (a : ℕ) =>
    (List.range (2 * radiusInCells + 1)).map (fun (b : ℕ) =>
      ⟨(getCellForPoint tileWidth lat lng).i + (a : ℤ) - (radiusInCells : ℤ),
       (getCellForPoint tileWidth lat lng).j + (b : ℤ) - (radiusInCells : ℤ)⟩))

/-- The cache-placement loop of the part_000 variant (lines 116-123):
`for (x = -LOCAL_RADIUS; x < LOCAL_RADIUS; x++) for (y = ...; y < ...; y++)`
— a half-open square `[-R, R) × [-R, R)`. -/
def placementCells (localRadius : ℕ) : List (ℤ × ℤ) :=
  (List.range (2 * localRadius)).flatMap (fun (a : ℕ) =>
    (List.range (2 * localRadius)).map (fun (b : ℕ) =>
      ((a : ℤ) - (localRadius : ℤ), (b : ℤ) - (localRadius : ℤ))))

/-! ### Persistence loading (main.ts lines 143-228)

`JSON.parse` is the browser's full JSON parser; it is modelled as an
oracle `parse : String → Option JsonVal` applied to the raw strings in
`localStorage` (`none` = the parse throws).  A thrown JavaScript
exception is `Except.error ()`: none of the load functions contain a
`try`/`catch`, so an error propagates out of `loadGameState`. -/

/-- A parsed JSON value. -/
inductive JsonVal where
  | str (s : String)
  | num (q : ℚ)
  | jbool (b : Bool)
  | null
  | arr (elems : List JsonVal)
  | obj (entries : List (String × JsonVal))

/-- The slice of `localStorage` the game reads at load time;
`none` models an absent key. -/
structure Storage where
  inventory : Option String
  playerPosition : Option String
  cacheMementos : Option String
  movementHistory : Option String

/-- `loadPlayerInventory` (main.ts line 152): an absent key leaves the
inventory untouched; otherwise `JSON.parse(saved).forEach(...)` — a parse
failure throws, `.forEach` on a non-array value throws a TypeError, and
an array replaces the inventory with a coin per element (the code does
not validate element types, so the raw parsed values are kept). -/
def loadPlayerInventory (parse : String → Option JsonVal) (store : Storage)
    (inv : List JsonVal) : Except Unit (List JsonVal) :=
  match store.inventory with
  | none => Except.ok inv
  | some saved =>
    match parse saved with
    | some (JsonVal.arr elems) => Except.ok elems
    | _ => Except.error ()

/-- `loadPlayerPosition` (main.ts line 143): an absent key keeps the
position; a parse failure throws; destructuring `{ lat, lng }` of `null`
throws; and `leaflet.LatLng` rejects a missing/non-numeric `lat`/`lng`
(NaN check).  Only an object with numeric `lat` and `lng` loads. -/
def loadPlayerPosition (parse : String → Option JsonVal) (store : Storage)
    (pos : ℚ × ℚ) : Except Unit (ℚ × ℚ) :=
  match store.playerPosition with
  | none => Except.ok pos
  | some saved =>
    match parse saved with
    | some (JsonVal.obj entries) =>
      match findEntry entries "lat", findEntry entries "lng" with
      | some (JsonVal.num lat), some (JsonVal.num lng) => Except.ok (lat, lng)
      | _, _ => Except.error ()
    | _ => Except.error ()

/-- The `for (const key in cacheEntries)` loop body (main.ts lines
175-184): a `string`-valued own property is stored into the directory,
any other value is skipped and its key logged with `console.warn`. -/
def loadEntries : List (String × JsonVal) → MementoDir × List String → MementoDir × List String
  | [], acc => acc
  | (k, JsonVal.str m) :: rest, (d, w) => loadEntries rest (setEntry d k m, w)
  | (k, _) :: rest, (d, w) => loadEntries rest (d, w ++ [k])

/-- The own enumerable properties `for ... in` iterates over a parsed
JSON value: an object's entries; an array's (and a primitive string's)
indices; nothing for other primitives. -/
def jsonOwnEntries : JsonVal → List (String × JsonVal)
  | JsonVal.obj entries => entries
  | JsonVal.arr elems =>
    ((List.range elems.length).zip elems).map (fun p => (toString p.1, p.2))
  | JsonVal.str s =>
    ((List.range s.data.length).zip s.data).map
      (fun p => (toString p.1, JsonVal.str (String.mk [p.2])))
  | _ => []

/-- Whether `cache.fromMemento(memento)` succeeds on a raw stored
string: `JSON.parse(memento)` must not throw and must yield an array
(`coinIds.map(...)` throws a TypeError on anything else; an array of
any element types succeeds, producing coins from the raw values). -/
def hydrates (parse : String → Option JsonVal) (m : String) : Bool :=
  match parse m with
  | some (JsonVal.arr _) => true
  | _ => false

/-- The marker-spawning loop of `loadCacheMementos` (main.ts 186-197)
runs to completion iff every in-range entry's memento hydrates: for each
directory entry whose cell center lies within the visibility distance of
the player, `cache.fromMemento(memento)` re-parses the memento and
throws unless it is a JSON array.  The geometric gate (parsing the key
into a cell, the bound center from the missing `grid.ts`, and leaflet's
`distanceTo` against `TILE_VISIBILITY_RADIUS * TILE_WIDTH *
DEGREES_TO_METERS`) is abstracted as the oracle `inRange` on the key. -/
def spawnLoopOk (parse : String → Option JsonVal) (inRange : String → Bool)
    (d : MementoDir) : Bool :=
  d.all (fun e => !(inRange e.1) || hydrates parse e.2)

/-- `loadCacheMementos` (main.ts line 164): an absent key leaves the
directory; a parse failure throws (the `cacheMementos.clear()` on line
173 runs only after a successful parse); otherwise the directory is
rebuilt from the string-valued entries, warning on (and skipping) each
malformed one, and then the marker-spawning loop (lines 186-197)
hydrates every in-range entry — throwing, with the directory already
populated but the load aborted, if one of those mementos does not
re-parse as a JSON array (`spawnLoopOk`).  The loop's surviving effects
are presentation-only (markers); it writes nothing back to the
directory for the integer `"i,j"` keys the program itself persists,
whose cell key re-derivation round-trips. -/
def loadCacheMementos (parse : String → Option JsonVal) (inRange : String → Bool)
    (store : Storage) (dir : MementoDir) : Except Unit (MementoDir × List String) :=
  match store.cacheMementos with
  | none => Except.ok (dir, [])
  | some saved =>
    match parse saved with
    | none => Except.error ()
    | some v =>
      if spawnLoopOk parse inRange (loadEntries (jsonOwnEntries v) ([], [])).1
      then Except.ok (loadEntries (jsonOwnEntries v) ([], []))
      else Except.error ()

/-- `leaflet.LatLng` construction from one parsed trail element
(main.ts lines 208-210): only an object with numeric `lat` and `lng`
yields a point; anything else makes `new LatLng` throw. -/
def latLngOfJson : JsonVal → Option (ℚ × ℚ)
  | JsonVal.obj entries =>
    match findEntry entries "lat", findEntry entries "lng" with
    | some (JsonVal.num lat), some (JsonVal.num lng) => some (lat, lng)
    | _, _ => none
  | _ => none

/-- `loadMovementHistory` (main.ts line 201): an absent key keeps the
trail; a parse failure or `.forEach` on a non-array throws; an array of
`{lat, lng}` objects replaces the trail. -/
def loadMovementHistory (parse : String → Option JsonVal) (store : Storage)
    (hist : List (ℚ × ℚ)) : Except Unit (List (ℚ × ℚ)) :=
  match store.movementHistory with
  | none => Except.ok hist
  | some saved =>
    match parse saved with
    | some (JsonVal.arr elems) =>
      match elems.mapM latLngOfJson with
      | some points => Except.ok points
      | none => Except.error ()
    | _ => Except.error ()

/-- The in-memory state `loadGameState` rebuilds. -/
structure LoadedState where
  inv : List JsonVal
  pos : ℚ × ℚ
  dir : MementoDir
  warnings : List String
  hist : List (ℚ × ℚ)

/-- `loadGameState` (main.ts line 222): the four loaders run in source
order with no `try`/`catch`, so the first thrown exception aborts the
rest (and escapes to the caller). -/
def loadGameState (parse : String → Option JsonVal) (inRange : String → Bool)
    (store : Storage) (init : LoadedState) : Except Unit LoadedState := do
  let inv ← loadPlayerInventory parse store init.inv
  let pos ← loadPlayerPosition parse store init.pos
  let dm ← loadCacheMementos parse inRange store init.dir
  let hist ← loadMovementHistory parse store init.hist
  return { inv := inv, pos := pos, dir := dm.1, warnings := dm.2, hist := hist }

/-- `true` exactly on JSON strings (`typeof memento === "string"`). -/
def isStrVal : JsonVal → Bool
  | JsonVal.str _ => true
  | _ => false

/-- Hydrating a fresh cache from a memento produced by `toMemento`
succeeds and rebuilds exactly the serialized ids (shared helper). -/
lemma fromMemento_toMemento (c : Cache) (h : ∀ coin ∈ c.coins, CleanId coin.id) :
    Cache.fromMemento ⟨[]⟩ c.toMemento
      = some ⟨(c.coins.map (fun coin => coin.id)).map (fun id => ⟨id⟩)⟩ := by
  have hq : ∀ x ∈ c.coins.map (fun coin => coin.id), ∀ ch ∈ x.data, ch ≠ '"' := by
    intro x hx ch hch
    obtain ⟨coin, hcoin, rfl⟩ := List.mem_map.mp hx
    exact ((h coin hcoin) ch hch).1
  rw [Cache.fromMemento, Cache.toMemento, parse_render _ hq]
  rfl

/-! ## The claims -/

/-- **C1** Memento round-trip fidelity: for every `Cache` (with ids free
of JSON escapes, as all generated ids are), hydrating a fresh `Cache`
from its own serialization via `fromMemento` and re-serializing via
`toMemento` yields the identical memento string; hence a Cache Directory
entry `get(k)` (always produced by `toMemento`) survives a
hydrate/serialize cycle unchanged. -/
theorem C1_memento_roundtrip (c : Cache) (h : ∀ coin ∈ c.coins, CleanId coin.id) :
    ∃ c', Cache.fromMemento ⟨[]⟩ c.toMemento = some c' ∧ c'.toMemento = c.toMemento := by
  refine ⟨⟨(c.coins.map (fun coin => coin.id)).map (fun id => ⟨id⟩)⟩,
    fromMemento_toMemento c h, ?_⟩
  rw [Cache.toMemento, Cache.toMemento]
  congr 1
  simp [List.map_map, Function.comp_def]

theorem C1_memento_roundtrip_witness :
    ∃ c', Cache.fromMemento ⟨[]⟩ (Cache.toMemento ⟨[⟨"0:0#0"⟩, ⟨"0:0#1"⟩]⟩) = some c' ∧
      c'.toMemento = Cache.toMemento ⟨[⟨"0:0#0"⟩, ⟨"0:0#1"⟩]⟩ :=
  C1_memento_roundtrip ⟨[⟨"0:0#0"⟩, ⟨"0:0#1"⟩]⟩ (by decide)

/-- **C2** Idempotent revisit: for a cell whose directory entry is the
serialization of the cache it held when materialized, dematerializing
(which touches only the marker set, never the directory) and
re-materializing hydrates strictly from the directory entry — for every
oracle, i.e. without regenerating content — and yields a cache holding
the same ordered token-id sequence, leaving the directory unchanged. -/
theorem C2_idempotent_revisit (s : VisState) (cell : Cell) (prev : Cache)
    (hsync : findEntry s.dir (cellKeyStr cell) = some prev.toMemento)
    (hclean : ∀ coin ∈ prev.coins, CleanId coin.id) :
    ∃ c', (∀ oracle : String → ℚ,
        materializeCell oracle (dematerializeCell s (cellKeyStr cell)) cell
          = some (c', ⟨s.dir,
              (s.active.filter (fun k => k ≠ cellKeyStr cell)) ++ [cellKeyStr cell]⟩)) ∧
      c'.coins.map (fun coin => coin.id) = prev.coins.map (fun coin => coin.id) := by
  refine ⟨⟨(prev.coins.map (fun coin => coin.id)).map (fun id => ⟨id⟩)⟩, ?_, ?_⟩
  · intro oracle
    simp only [materializeCell, dematerializeCell, getOrCreateCache, hsync,
      fromMemento_toMemento prev hclean, Option.map_some']
  · simp [List.map_map, Function.comp_def]

theorem C2_idempotent_revisit_witness :
    ∃ c', (∀ oracle : String → ℚ,
        materializeCell oracle
          (dematerializeCell ⟨[("0,0", Cache.toMemento ⟨[⟨"0:0#0"⟩]⟩)], ["0,0"]⟩ (cellKeyStr ⟨0, 0⟩))
          ⟨0, 0⟩
          = some (c', ⟨[("0,0", Cache.toMemento ⟨[⟨"0:0#0"⟩]⟩)],
              (["0,0"].filter (fun k => k ≠ cellKeyStr ⟨0, 0⟩)) ++ [cellKeyStr ⟨0, 0⟩]⟩)) ∧
      c'.coins.map (fun coin => coin.id) = [⟨"0:0#0"⟩].map (fun coin => Coin.id coin) :=
  C2_idempotent_revisit ⟨[("0,0", Cache.toMemento ⟨[⟨"0:0#0"⟩]⟩)], ["0,0"]⟩ ⟨0, 0⟩
    ⟨[⟨"0:0#0"⟩]⟩ (by rfl) (by decide)

/-- **C3, counterexample**: conservation fails on a reachable run.  The
initial placement loop (main.ts 467-471) runs before `loadGameState`
(line 533) and never registers its markers, so its popups keep stale
`Cache` closures.  Session 1 generates cache `"0,0"` as
`[0:0#0, 0:0#1]`, collects `0:0#0` and saves (inventory `[0:0#0]`,
entry `[0:0#1]`).  On reload the init loop deterministically regenerates
`[0:0#0, 0:0#1]` into an orphan marker's cache, then `loadCacheMementos`
restores the entry `[0:0#1]`; the orphan popup still offers `0:0#0`, and
collecting it takes `|inventory| + sum|cache|` from 2 to 3 — a token is
created, refuting invariance over every reachable collect/deposit
sequence. -/
theorem C3_token_conservation_counterexample :
    totalTokens ⟨["0:0#0"], [("0,0", ["0:0#1"])]⟩ = 2 ∧
    totalTokens (collectCoinView ⟨["0:0#0"], [("0,0", ["0:0#1"])]⟩
      ["0:0#0", "0:0#1"] "0,0" "0:0#0").2 = 3 := by
  decide

/-- **C3, amended**: token conservation holds for every sequence of
collect/deposit operations whose collects each target a coin id present
in the target cell's directory entry — i.e. collects issued through a
hydrated cache in sync with the Cache Directory — starting from any
state with globally duplicate-free coin ids: such operations permute the
id pool, so `|inventory| + sum(|cache.tokens|)` is invariant.  Collects
through the stale, never-registered initial-placement popups that
survive a reload fall outside this discipline and can create tokens
(see the counterexample). -/
theorem C3_token_conservation (s : StoreState) (ops : List Op)
    (hnd : (allIds s).Nodup) (hv : validOps s ops = true) :
    totalTokens (applyOps s ops) = totalTokens s := by
  rw [totalTokens_eq_length_allIds, totalTokens_eq_length_allIds]
  exact (allIds_applyOps_perm ops s hnd hv).length_eq

theorem C3_token_conservation_witness :
    (allIds ⟨[], [("0,0", ["0:0#0", "0:0#1"])]⟩).Nodup ∧
    validOps ⟨[], [("0,0", ["0:0#0", "0:0#1"])]⟩
      [Op.collect "0,0" "0:0#0", Op.deposit "0,0"] = true ∧
    totalTokens (applyOps ⟨[], [("0,0", ["0:0#0", "0:0#1"])]⟩
      [Op.collect "0,0" "0:0#0", Op.deposit "0,0"])
      = totalTokens ⟨[], [("0,0", ["0:0#0", "0:0#1"])]⟩ :=
  ⟨by decide, by decide,
    C3_token_conservation ⟨[], [("0,0", ["0:0#0", "0:0#1"])]⟩
      [Op.collect "0,0" "0:0#0", Op.deposit "0,0"] (by decide) (by decide)⟩

/-- **C4, counterexample**: the same stale-view mechanism as C3's
counterexample refutes no-duplication on a reachable run.  After a
reload (inventory `[0:0#0]`, entry `[0:0#1]`, orphan stale view
`[0:0#0, 0:0#1]`), collecting `0:0#1` through the orphan popup flushes
`toMemento` of the stale filtered list `[0:0#0]` over the entry: now
`0:0#0` is in the player inventory and in cache `"0,0"` simultaneously. -/
theorem C4_no_cross_container_duplication_counterexample :
    ¬ NoSharedId (collectCoinView ⟨["0:0#0"], [("0,0", ["0:0#1"])]⟩
      ["0:0#0", "0:0#1"] "0,0" "0:0#1").2 := by
  intro h
  exact h "0:0#0" (by decide) ("0,0", ["0:0#0"]) (by decide) (by decide)

/-- **C4, amended**: starting from any state with globally
duplicate-free coin ids, after any sequence of collect/deposit
operations whose collects each target a coin id present in the target
cell's directory entry (collects through caches in sync with the
directory), no token id is in the player inventory and simultaneously in
any cache's token set.  Collects through the stale initial-placement
popups that survive a reload fall outside this discipline and can leave
an id in both containers (see the counterexample). -/
theorem C4_no_cross_container_duplication (s : StoreState) (ops : List Op)
    (hnd : (allIds s).Nodup) (hv : validOps s ops = true) :
    NoSharedId (applyOps s ops) :=
  noSharedId_of_nodup _ ((allIds_applyOps_perm ops s hnd hv).nodup_iff.mpr hnd)

theorem C4_no_cross_container_duplication_witness :
    (allIds ⟨["5:5#0"], [("0,0", ["0:0#0"]), ("0,1", [])]⟩).Nodup ∧
    validOps ⟨["5:5#0"], [("0,0", ["0:0#0"]), ("0,1", [])]⟩
      [Op.collect "0,0" "0:0#0", Op.deposit "0,1", Op.deposit "0,1"] = true ∧
    NoSharedId (applyOps ⟨["5:5#0"], [("0,0", ["0:0#0"]), ("0,1", [])]⟩
      [Op.collect "0,0" "0:0#0", Op.deposit "0,1", Op.deposit "0,1"]) :=
  ⟨by decide, by decide,
    C4_no_cross_container_duplication ⟨["5:5#0"], [("0,0", ["0:0#0"]), ("0,1", [])]⟩
      [Op.collect "0,0" "0:0#0", Op.deposit "0,1", Op.deposit "0,1"]
      (by decide) (by decide)⟩

/-- **C5, counterexample**: `collectCoin` performs no presence check.  At
the concrete state with one cache `"0,0"` holding only `"0:0#0"`,
collecting the absent id `"9:9#0"` is not a no-op: the cache entry is
unchanged but the inventory still gains the coin, refuting both "fails
with NotFound" and "causes no state change". -/
theorem C5_collect_notfound_counterexample :
    ("9:9#0" ∉ (["0:0#0"] : List String)) ∧
    applyCollect ⟨[], [("0,0", ["0:0#0"])]⟩ "0,0" "9:9#0" ≠ ⟨[], [("0,0", ["0:0#0"])]⟩ ∧
    (applyCollect ⟨[], [("0,0", ["0:0#0"])]⟩ "0,0" "9:9#0").inv = ["9:9#0"] := by
  decide

/-- **C5, amended**: `collectCoin` filters the cache's coins by the
requested id and unconditionally appends the coin to the inventory; when
the id is present it is thereby removed from the cache and transferred,
but when it is absent there is no NotFound failure and no no-op — the
cache is left unchanged while the inventory still gains the id. -/
theorem C5_collect_no_presence_check (s : StoreState) (k cid : String)
    (m : List String) (hf : findEntry s.dir k = some m) :
    (applyCollect s k cid).inv = s.inv ++ [cid] ∧
    findEntry (applyCollect s k cid).dir k = some (m.filter (fun c => c != cid)) ∧
    (cid ∉ m → findEntry (applyCollect s k cid).dir k = some m) := by
  refine ⟨?_, ?_, ?_⟩
  · simp only [applyCollect, hf]
  · simp only [applyCollect, hf]
    exact findEntry_setEntry_self _ _ _
  · intro hmem
    simp only [applyCollect, hf]
    rw [findEntry_setEntry_self]
    congr 1
    apply List.filter_eq_self.mpr
    intro c hc
    cases h : (c == cid)
    · simp [bne, h]
    · exact absurd (by rwa [beq_iff_eq] at h ▸ hc : cid ∈ m) hmem

theorem C5_collect_no_presence_check_witness :
    findEntry (⟨[], [("0,0", ["0:0#0"])]⟩ : StoreState).dir "0,0" = some ["0:0#0"] ∧
    ((applyCollect ⟨[], [("0,0", ["0:0#0"])]⟩ "0,0" "9:9#1").inv = [] ++ ["9:9#1"] ∧
     findEntry (applyCollect ⟨[], [("0,0", ["0:0#0"])]⟩ "0,0" "9:9#1").dir "0,0"
       = some (["0:0#0"].filter (fun c => c != "9:9#1")) ∧
     ("9:9#1" ∉ (["0:0#0"] : List String) →
       findEntry (applyCollect ⟨[], [("0,0", ["0:0#0"])]⟩ "0,0" "9:9#1").dir "0,0"
         = some ["0:0#0"])) :=
  ⟨by decide, C5_collect_no_presence_check ⟨[], [("0,0", ["0:0#0"])]⟩ "0,0" "9:9#1"
    ["0:0#0"] (by decide)⟩

/-- **C6, counterexample**: at cell `(0, 0)` under an oracle with
`luck("0,0") = 0` and `luck("0,0,coins") = 1/2`, the claimed formula
`floor(luck("i,j,coins") * maxTokensPerCache)` matches neither variant:
`generateCoins` (main.ts, `maxTokensPerCache = 100`) produces `0` coins
(it draws from the suffix-free key `"0,0"`), not `50`; and the part_000
`createCache` count is `floor(luck("0,0,coins") * 10) + 1 = 6`, not
`floor(... * 10) = 5`. -/
theorem C6_token_count_counterexample :
    ((fun k => if k = "0,0,coins" then (1 : ℚ)/2 else 0) "0,0,coins" = 1/2) ∧
    (generateCoins (fun k => if k = "0,0,coins" then (1 : ℚ)/2 else 0) ⟨0, 0⟩).length = 0 ∧
    createCacheCoins (fun k => if k = "0,0,coins" then (1 : ℚ)/2 else 0) 0 0 = 6 ∧
    (⌊((1 : ℚ)/2) * 100⌋).toNat = 50 ∧
    (⌊((1 : ℚ)/2) * 10⌋).toNat = 5 ∧
    (0 : ℕ) ≠ 50 ∧ (6 : ℕ) ≠ 5 := by
  have hkey : cellKeyStr ⟨0, 0⟩ ≠ "0,0,coins" := by decide
  have hkey2 : coinsKeyStr 0 0 = "0,0,coins" := by decide
  have h100 : ((1 : ℚ)/2) * 100 = 50 := by norm_num
  have h10 : ((1 : ℚ)/2) * 10 = 5 := by norm_num
  refine ⟨by norm_num, ?_, ?_, ?_, ?_, by norm_num, by norm_num⟩
  · simp [generateCoins, hkey]
  · rw [createCacheCoins, hkey2]
    norm_num [h10]
    omega
  · rw [h100]
    norm_num
    omega
  · rw [h10]
    norm_num
    omega

/-- **C6, amended**: only the part_000 variant uses the `",coins"` key
suffix, and its count is `floor(luck("x,y,coins") * 10) + 1` — one more
than the claimed formula with `maxTokensPerCache = 10`, hence between 1
and 10 for an oracle value in `[0, 1)`; the main variant's
`generateCoins` instead draws `floor(luck("i,j") * 100)` from the same
suffix-free key as the spawn decision (see C10). -/
theorem C6_token_count_amended (oracle : String → ℚ) (x y : ℤ)
    (_h0 : 0 ≤ oracle (coinsKeyStr x y)) (h1 : oracle (coinsKeyStr x y) < 1) :
    createCacheCoins oracle x y = (⌊oracle (coinsKeyStr x y) * 10⌋).toNat + 1 ∧
    1 ≤ createCacheCoins oracle x y ∧ createCacheCoins oracle x y ≤ 10 ∧
    ∀ cell : Cell, (generateCoins oracle cell).length
      = (⌊oracle (cellKeyStr cell) * 100⌋).toNat := by
  refine ⟨rfl, by simp [createCacheCoins], ?_, ?_⟩
  · rw [createCacheCoins]
    have hlt : oracle (coinsKeyStr x y) * 10 < 10 := by linarith
    have hfloor : ⌊oracle (coinsKeyStr x y) * 10⌋ < 10 := by
      rw [Int.floor_lt]
      exact_mod_cast hlt
    omega
  · intro cell
    simp [generateCoins]

theorem C6_token_count_amended_witness :
    0 ≤ ((fun _ => (1 : ℚ)/2) (coinsKeyStr 0 0)) ∧
    ((fun _ => (1 : ℚ)/2) (coinsKeyStr 0 0)) < 1 ∧
    (createCacheCoins (fun _ => (1 : ℚ)/2) 0 0
        = (⌊((fun _ => (1 : ℚ)/2) (coinsKeyStr 0 0)) * 10⌋).toNat + 1 ∧
      1 ≤ createCacheCoins (fun _ => (1 : ℚ)/2) 0 0 ∧
      createCacheCoins (fun _ => (1 : ℚ)/2) 0 0 ≤ 10 ∧
      ∀ cell : Cell, (generateCoins (fun _ => (1 : ℚ)/2) cell).length
        = (⌊((fun _ => (1 : ℚ)/2) (cellKeyStr cell)) * 100⌋).toNat) :=
  ⟨by norm_num, by norm_num,
    C6_token_count_amended (fun _ => (1 : ℚ)/2) 0 0 (by norm_num) (by norm_num)⟩

/-- **C10** In the main variant the spawn decision and the token count
draw from the same oracle key `"i,j"` (no `",coins"` suffix): whenever a
cache spawns (`luck("i,j") < 0.1`, oracle values being in `[0, 1)`), it
is generated with `floor(luck("i,j") * 100)` tokens, which is between 0
and 9 inclusive; in particular a constant-zero oracle spawns a cache
holding zero tokens. -/
theorem C10_spawn_count_same_key (oracle : String → ℚ) (cell : Cell)
    (_h0 : 0 ≤ oracle (cellKeyStr cell))
    (hspawn : spawnDecision oracle cell = true) :
    (generateCoins oracle cell).length = (⌊oracle (cellKeyStr cell) * 100⌋).toNat ∧
    (generateCoins oracle cell).length ≤ 9 ∧
    spawnDecision (fun _ => (0 : ℚ)) cell = true ∧
    (generateCoins (fun _ => (0 : ℚ)) cell).length = 0 := by
  have hlen : (generateCoins oracle cell).length
      = (⌊oracle (cellKeyStr cell) * 100⌋).toNat := by
    simp [generateCoins]
  have hv : oracle (cellKeyStr cell) < CACHE_SPAWN_PROBABILITY :=
    of_decide_eq_true hspawn
  have hlt : oracle (cellKeyStr cell) * 100 < 10 := by
    rw [CACHE_SPAWN_PROBABILITY] at hv
    linarith
  have hfloor : ⌊oracle (cellKeyStr cell) * 100⌋ < 10 := by
    rw [Int.floor_lt]
    exact_mod_cast hlt
  refine ⟨hlen, ?_, ?_, ?_⟩
  · rw [hlen]
    omega
  · rw [spawnDecision, CACHE_SPAWN_PROBABILITY]
    norm_num
  · simp [generateCoins]

theorem C10_spawn_count_same_key_witness :
    0 ≤ ((fun _ => (7 : ℚ)/100) (cellKeyStr ⟨0, 0⟩)) ∧
    spawnDecision (fun _ => (7 : ℚ)/100) ⟨0, 0⟩ = true ∧
    ((generateCoins (fun _ => (7 : ℚ)/100) ⟨0, 0⟩).length
        = (⌊((fun _ => (7 : ℚ)/100) (cellKeyStr ⟨0, 0⟩)) * 100⌋).toNat ∧
      (generateCoins (fun _ => (7 : ℚ)/100) ⟨0, 0⟩).length ≤ 9 ∧
      spawnDecision (fun _ => (0 : ℚ)) ⟨0, 0⟩ = true ∧
      (generateCoins (fun _ => (0 : ℚ)) ⟨0, 0⟩).length = 0) :=
  ⟨by norm_num, by rw [spawnDecision, CACHE_SPAWN_PROBABILITY]; norm_num,
    C10_spawn_count_same_key (fun _ => (7 : ℚ)/100) ⟨0, 0⟩ (by norm_num)
      (by rw [spawnDecision, CACHE_SPAWN_PROBABILITY]; norm_num)⟩


/-- **C8** FIFO deposit order: from an empty inventory, collecting coins
`A`, `B`, `C` (in that order, from a cache with a directory entry) and
then depositing three times deposits `A` first, then `B`, then `C`:
`depositCoin` takes its coin with `playerInventory.shift()`, the
earliest-collected one. -/
theorem C8_fifo_deposit_order (s : StoreState) (k : String) (m : List String)
    (A B C : String) (hinv : s.inv = []) (hdir : findEntry s.dir k = some m) :
    (applyOps s [Op.collect k A, Op.collect k B, Op.collect k C]).inv = [A, B, C] ∧
    (applyOps s [Op.collect k A, Op.collect k B, Op.collect k C,
        Op.deposit k]).inv = [B, C] ∧
    findEntry (applyOps s [Op.collect k A, Op.collect k B, Op.collect k C,
        Op.deposit k]).dir k
      = some ((((m.filter (fun c => c != A)).filter (fun c => c != B)).filter
          (fun c => c != C)) ++ [A]) ∧
    (applyOps s [Op.collect k A, Op.collect k B, Op.collect k C,
        Op.deposit k, Op.deposit k]).inv = [C] ∧
    findEntry (applyOps s [Op.collect k A, Op.collect k B, Op.collect k C,
        Op.deposit k, Op.deposit k]).dir k
      = some ((((m.filter (fun c => c != A)).filter (fun c => c != B)).filter
          (fun c => c != C)) ++ [A, B]) ∧
    (applyOps s [Op.collect k A, Op.collect k B, Op.collect k C,
        Op.deposit k, Op.deposit k, Op.deposit k]).inv = [] ∧
    findEntry (applyOps s [Op.collect k A, Op.collect k B, Op.collect k C,
        Op.deposit k, Op.deposit k, Op.deposit k]).dir k
      = some ((((m.filter (fun c => c != A)).filter (fun c => c != B)).filter
          (fun c => c != C)) ++ [A, B, C]) := by
  simp only [applyOps, List.foldl, applyOp, applyCollect, applyDeposit, hdir, hinv,
    findEntry_setEntry_self, List.nil_append, List.cons_append, List.append_assoc,
    List.singleton_append, List.append_nil, and_self, and_true, true_and]
theorem C8_fifo_deposit_order_witness :
    ((⟨[], [("0,0", ["0:0#0", "0:0#1", "0:0#2"])]⟩ : StoreState).inv = []) ∧
    (findEntry (⟨[], [("0,0", ["0:0#0", "0:0#1", "0:0#2"])]⟩ : StoreState).dir "0,0"
      = some ["0:0#0", "0:0#1", "0:0#2"]) ∧
    ((applyOps ⟨[], [("0,0", ["0:0#0", "0:0#1", "0:0#2"])]⟩
        [Op.collect "0,0" "0:0#0", Op.collect "0,0" "0:0#1",
         Op.collect "0,0" "0:0#2"]).inv = ["0:0#0", "0:0#1", "0:0#2"]) ∧
    (findEntry (applyOps ⟨[], [("0,0", ["0:0#0", "0:0#1", "0:0#2"])]⟩
        [Op.collect "0,0" "0:0#0", Op.collect "0,0" "0:0#1", Op.collect "0,0" "0:0#2",
         Op.deposit "0,0", Op.deposit "0,0", Op.deposit "0,0"]).dir "0,0"
      = some (((((["0:0#0", "0:0#1", "0:0#2"] : List String).filter
            (fun c => c != "0:0#0")).filter (fun c => c != "0:0#1")).filter
            (fun c => c != "0:0#2")) ++ ["0:0#0", "0:0#1", "0:0#2"])) :=
  have h := C8_fifo_deposit_order ⟨[], [("0,0", ["0:0#0", "0:0#1", "0:0#2"])]⟩ "0,0"
    ["0:0#0", "0:0#1", "0:0#2"] "0:0#0" "0:0#1" "0:0#2" rfl (by decide)
  ⟨rfl, by decide, h.1, h.2.2.2.2.2.2⟩

/-- Length of a square flatMap-of-map grid enumeration (helper). -/
lemma length_square_flatMap {β : Type} (n : ℕ) (f : ℕ → ℕ → β) :
    ((List.range n).flatMap (fun a => (List.range n).map (f a))).length = n * n := by
  rw [List.length_flatMap]
  have hrep : (List.map (List.length ∘ fun a => (List.range n).map (f a)) (List.range n))
      = List.replicate n n := by
    rw [List.eq_replicate_iff]
    refine ⟨by simp, ?_⟩
    intro b hb
    simp only [List.mem_map, Function.comp_apply] at hb
    obtain ⟨a, -, rfl⟩ := hb
    simp
  rw [hrep, List.sum_replicate, smul_eq_mul]

/-- **C7** Neighborhood correctness: for every point and radius,
`getCellsNearPoint` returns exactly `(2r+1)^2` distinct cells, namely
every cell whose `(i, j)` differs from `cellForPoint(point)`'s by at
most `r` in each axis — the inclusive Chebyshev square centred on the
player's cell. -/
theorem C7_neighborhood_correctness (w lat lng : ℚ) (r : ℕ) :
    (getCellsNearPoint w lat lng r).length = (2 * r + 1) ^ 2 ∧
    (getCellsNearPoint w lat lng r).Nodup ∧
    ∀ c : Cell, c ∈ getCellsNearPoint w lat lng r ↔
      ((c.i - (getCellForPoint w lat lng).i).natAbs ≤ r ∧
       (c.j - (getCellForPoint w lat lng).j).natAbs ≤ r) := by
  refine ⟨?_, ?_, ?_⟩
  · rw [getCellsNearPoint]
    rw [length_square_flatMap (2 * r + 1) (fun a b =>
      (⟨(getCellForPoint w lat lng).i + (a : ℤ) - (r : ℤ),
        (getCellForPoint w lat lng).j + (b : ℤ) - (r : ℤ)⟩ : Cell))]
    ring
  · rw [getCellsNearPoint, List.nodup_flatMap]
    constructor
    · intro a _
      refine List.Nodup.map ?_ (List.nodup_range _)
      intro b b' hb
      have hj := congrArg Cell.j hb
      simp only at hj
      omega
    · refine (List.pairwise_lt_range _).imp ?_
      intro a a' hlt c hc hc'
      obtain ⟨b, -, rfl⟩ := List.mem_map.mp hc
      obtain ⟨b', -, hb⟩ := List.mem_map.mp hc'
      have hi := congrArg Cell.i hb
      simp only at hi
      omega
  · intro c
    obtain ⟨x, y⟩ := c
    simp only [getCellsNearPoint, List.mem_flatMap, List.mem_map, List.mem_range]
    constructor
    · rintro ⟨a, ha, b, hb, hc⟩
      rw [Cell.mk.injEq] at hc
      obtain ⟨h1, h2⟩ := hc
      constructor <;> omega
    · rintro ⟨h1, h2⟩
      refine ⟨(x - (getCellForPoint w lat lng).i + r).toNat, by omega,
        (y - (getCellForPoint w lat lng).j + r).toNat, by omega, ?_⟩
      rw [Cell.mk.injEq]
      constructor <;> omega

/-- Membership in a directory after `setEntry` (helper). -/
lemma mem_setEntry {α : Type} (d : List (String × α)) (k : String) (v : α)
    (e : String × α) : e ∈ setEntry d k v → e ∈ d ∨ e = (k, v) := by
  induction d with
  | nil =>
    intro h
    simp [setEntry] at h
    simp [h]
  | cons e' rest ih =>
    obtain ⟨k', v'⟩ := e'
    intro h
    by_cases hk : k' = k
    · subst hk
      simp only [setEntry, eq_self_iff_true, if_true, List.mem_cons] at h
      rcases h with h | h
      · right; exact h
      · left; exact List.mem_cons_of_mem _ h
    · simp only [setEntry, if_neg hk, List.mem_cons] at h
      rcases h with h | h
      · left; exact List.mem_cons.mpr (Or.inl h)
      · rcases ih h with h' | h'
        · left; exact List.mem_cons_of_mem _ h'
        · right; exact h'

/-- The warnings produced by the memento-entry loop are exactly the keys
of the malformed (non-string) entries, in order (helper). -/
lemma loadEntries_warnings (entries : List (String × JsonVal)) (d : MementoDir)
    (w : List String) :
    (loadEntries entries (d, w)).2
      = w ++ (entries.filter (fun e => !(isStrVal e.2))).map Prod.fst := by
  induction entries generalizing d w with
  | nil => simp [loadEntries]
  | cons e rest ih =>
    obtain ⟨k, v⟩ := e
    cases v <;> simp [loadEntries, isStrVal, ih]

/-- Every directory entry produced by the memento-entry loop comes from a
string-valued stored entry (helper). -/
lemma loadEntries_mem (entries : List (String × JsonVal)) (k : String) (m : String) :
    ∀ (d : MementoDir) (w : List String),
      (k, m) ∈ (loadEntries entries (d, w)).1 →
        (k, m) ∈ d ∨ (k, JsonVal.str m) ∈ entries := by
  induction entries with
  | nil =>
    intro d w h
    simp only [loadEntries] at h
    left
    exact h
  | cons e rest ih =>
    obtain ⟨k', v⟩ := e
    intro d w h
    cases v with
    | str m' =>
      rcases ih (setEntry d k' m') w h with h' | h'
      · rcases mem_setEntry d k' m' (k, m) h' with h2 | h2
        · left; exact h2
        · right
          rw [Prod.mk.injEq] at h2
          simp [h2.1, h2.2]
      · right; exact List.mem_cons_of_mem _ h'
    | num q => rcases ih d (w ++ [k']) h with h' | h' <;> simp [h']
    | jbool b => rcases ih d (w ++ [k']) h with h' | h' <;> simp [h']
    | null => rcases ih d (w ++ [k']) h with h' | h' <;> simp [h']
    | arr elems => rcases ih d (w ++ [k']) h with h' | h' <;> simp [h']
    | obj entries2 => rcases ih d (w ++ [k']) h with h' | h' <;> simp [h']

/-- **C9, counterexample**: with a stored `cacheMementos` value that
`JSON.parse` cannot parse (and every other key absent), `loadGameState`
throws — no handler catches it, so loading fails fatally and the
movement history is never loaded — refuting "never fails fatally and
never aborts loading the remaining state". -/
theorem C9_invalid_persisted_data_counterexample :
    loadGameState (fun _ => none) (fun _ => false) ⟨none, none, some "not-json", none⟩
      ⟨[], (0, 0), [], [], []⟩ = Except.error () := rfl

/-- **C9, amended**: a malformed (non-string-valued) entry inside a
successfully parsed `cacheMementos` object is skipped with a warning
while the remaining entries still load, and such entries never abort the
load; the full load then completes — with the other components intact —
exactly when every in-range string entry's memento re-parses as a JSON
array (the marker-spawning half of `loadCacheMementos` hydrates in-range
mementos and its uncaught exception otherwise aborts the rest of
`loadGameState`, just as an unparseable stored component does — see the
counterexample). -/
theorem C9_invalid_persisted_data_amended (parse : String → Option JsonVal)
    (inRange : String → Bool) (saved : String) (entries : List (String × JsonVal))
    (inv0 : List JsonVal) (pos0 : ℚ × ℚ) (dir0 : MementoDir) (hist0 : List (ℚ × ℚ))
    (hparse : parse saved = some (JsonVal.obj entries)) :
    loadGameState parse inRange ⟨none, none, some saved, none⟩
        ⟨inv0, pos0, dir0, [], hist0⟩
      = (if spawnLoopOk parse inRange (loadEntries entries ([], [])).1
         then Except.ok ⟨inv0, pos0, (loadEntries entries ([], [])).1,
             (loadEntries entries ([], [])).2, hist0⟩
         else Except.error ()) ∧
    (loadEntries entries ([], [])).2
      = (entries.filter (fun e => !(isStrVal e.2))).map Prod.fst ∧
    ∀ k m, (k, m) ∈ (loadEntries entries ([], [])).1 → (k, JsonVal.str m) ∈ entries := by
  refine ⟨?_, ?_, ?_⟩
  · simp only [loadGameState, loadPlayerInventory, loadPlayerPosition,
      loadCacheMementos, loadMovementHistory, jsonOwnEntries, hparse]
    cases hs : spawnLoopOk parse inRange (loadEntries entries ([], [])).1 <;>
      simp only [hs, if_true, if_false, Bool.false_eq_true] <;> rfl
  · rw [loadEntries_warnings]
    simp
  · intro k m h
    rcases loadEntries_mem entries k m [] [] h with h' | h'
    · simp at h'
    · exact h'

theorem C9_invalid_persisted_data_amended_witness :
    ((fun s => if s = "SAVED"
        then some (JsonVal.obj [("0,0", JsonVal.str "[]"), ("1,1", JsonVal.num 5)])
        else if s = "[]" then some (JsonVal.arr []) else none) "SAVED"
      = some (JsonVal.obj [("0,0", JsonVal.str "[]"), ("1,1", JsonVal.num 5)])) ∧
    (loadGameState (fun s => if s = "SAVED"
        then some (JsonVal.obj [("0,0", JsonVal.str "[]"), ("1,1", JsonVal.num 5)])
        else if s = "[]" then some (JsonVal.arr []) else none) (fun _ => true)
        ⟨none, none, some "SAVED", none⟩ ⟨[], (0, 0), [], [], []⟩
      = (if spawnLoopOk (fun s => if s = "SAVED"
            then some (JsonVal.obj [("0,0", JsonVal.str "[]"), ("1,1", JsonVal.num 5)])
            else if s = "[]" then some (JsonVal.arr []) else none) (fun _ => true)
            (loadEntries [("0,0", JsonVal.str "[]"), ("1,1", JsonVal.num 5)] ([], [])).1
         then Except.ok ⟨[], (0, 0),
             (loadEntries [("0,0", JsonVal.str "[]"), ("1,1", JsonVal.num 5)] ([], [])).1,
             (loadEntries [("0,0", JsonVal.str "[]"), ("1,1", JsonVal.num 5)] ([], [])).2,
             []⟩
         else Except.error ()) ∧
     (loadEntries [("0,0", JsonVal.str "[]"), ("1,1", JsonVal.num 5)] ([], [])).2
       = ([("0,0", JsonVal.str "[]"), ("1,1", JsonVal.num 5)].filter
           (fun e => !(isStrVal e.2))).map Prod.fst ∧
     ∀ k m, (k, m) ∈ (loadEntries [("0,0", JsonVal.str "[]"),
           ("1,1", JsonVal.num 5)] ([], [])).1 →
       (k, JsonVal.str m) ∈ [("0,0", JsonVal.str "[]"), ("1,1", JsonVal.num 5)]) :=
  ⟨rfl, C9_invalid_persisted_data_amended _ (fun _ => true) "SAVED"
    [("0,0", JsonVal.str "[]"), ("1,1", JsonVal.num 5)] [] (0, 0) [] [] rfl⟩

end Demo3
